import Mathlib

/-!
Shallow embedding of the repository relevance engine of GitResume
(`GitHubService.rankRepositories`, `GitHubService.calculateRepoScore`,
`GitHubService.hybridSearch`), together with proofs of the specified
properties.

Modelling conventions:
* JavaScript numbers are modelled exactly: integer-valued fields as `Int`
  (they may be negative in principle), computed scores as `ℚ` (the score
  formula divides `size` by 1000 and milliseconds by 86400000).
* The `updated_at` ISO string is modelled as the instant it parses to,
  in milliseconds (`new Date(s).getTime()`); the wall clock `Date.now()`
  is an explicit parameter `now`.
* A possibly-null `description` is `Option String`.
* `Array.prototype.sort` with comparator `(a, b) => b.score - a.score`
  is, per the ECMAScript specification, a stable sort yielding the list
  in non-increasing score order with ties in original order; it is
  modelled by the stable insertion sort `sortByScore`.
* `rankRepositories` returns the input records each extended with a
  `score` field (`{...repo, score}`), modelled as `ScoredRepo`.
  `hybridSearch` mixes plain records (its text-match phase) with scored
  records (its ranked fill), modelled as a sum type.
* All functions are pure; the source methods mutate neither their input
  array nor the records in it (they build fresh arrays via `map`,
  `filter`, `slice` and object spread), which the pure embedding
  reflects by construction.
-/

namespace GitResume

/-- The repository metadata record (interface `GitHubRepo`), with
`updated_at` as a parsed instant in milliseconds and `description`
possibly null. Fields not consulted by the relevance engine
(`created_at`, `pushed_at`, `html_url`) are omitted. -/
structure GitHubRepo where
  id : Int
  name : String
  full_name : String
  description : Option String
  language : String
  stargazers_count : Int
  forks_count : Int
  size : Int
  updated_at : Int
  topics : List String
deriving DecidableEq

/-- A record extended with its computed `score` field, as built by
`rankRepositories` via `{...repo, score: this.calculateRepoScore(repo)}`. -/
structure ScoredRepo where
  repo : GitHubRepo
  score : ℚ
deriving DecidableEq

/-- The fixed popular-language list of `calculateRepoScore`. -/
def popularLanguages : List String :=
  ["JavaScript", "TypeScript", "Python", "Java", "Go", "Rust"]

/-- Stars weight: `Math.min(repo.stargazers_count * 2, 30)`. -/
def starScore (repo : GitHubRepo) : ℚ :=
  ((min (repo.stargazers_count * 2) 30 : Int) : ℚ)

/-- Forks weight: `Math.min(repo.forks_count * 3, 20)`. -/
def forkScore (repo : GitHubRepo) : ℚ :=
  ((min (repo.forks_count * 3) 20 : Int) : ℚ)

/-- Size weight: `Math.min(repo.size / 1000, 15)` (true division). -/
def sizeScore (repo : GitHubRepo) : ℚ :=
  min ((repo.size : ℚ) / 1000) 15

/-- Language bonus: `+10` when the language is in `popularLanguages`. -/
def langScore (repo : GitHubRepo) : ℚ :=
  if repo.language ∈ popularLanguages then 10 else 0

/-- Days since last update:
`(Date.now() - new Date(repo.updated_at).getTime()) / (1000*60*60*24)`. -/
def daysSinceUpdate (now : Int) (repo : GitHubRepo) : ℚ :=
  ((now : ℚ) - (repo.updated_at : ℚ)) / (1000 * 60 * 60 * 24)

/-- Recency tier: `<30` days `+15`, `<90` days `+10`, `<180` days `+5`. -/
def recencyScore (now : Int) (repo : GitHubRepo) : ℚ :=
  if daysSinceUpdate now repo < 30 then 15
  else if daysSinceUpdate now repo < 90 then 10
  else if daysSinceUpdate now repo < 180 then 5
  else 0

/-- Description bonus: `+10` when `repo.description` is non-null and longer
than 20 characters. (A null or empty description is falsy in the source
guard `repo.description && repo.description.length > 20`; an empty string
fails the length test anyway, so `Option`-matching is equivalent.) -/
def descriptionScore (repo : GitHubRepo) : ℚ :=
  match repo.description with
  | none => 0
  | some d => if 20 < d.length then 10 else 0

/-- Model of `GitHubService.calculateRepoScore`: the running sum `score` of the six
signals, in source order. -/
def calculateRepoScore (now : Int) (repo : GitHubRepo) : ℚ :=
  starScore repo + forkScore repo + sizeScore repo + langScore repo
    + recencyScore now repo + descriptionScore repo

/-- The map step of `rankRepositories`: `{...repo, score: calculateRepoScore(repo)}`. -/
def addScore (now : Int) (repo : GitHubRepo) : ScoredRepo :=
  ⟨repo, calculateRepoScore now repo⟩

/-- Stable insertion into a list sorted by non-increasing score: the new
element goes in front of the first element whose score it reaches
(so, among equal scores, an earlier input element stays in front). -/
def sInsert (x : ScoredRepo) : List ScoredRepo → List ScoredRepo
  | [] => [x]
  | y :: ys => if y.score ≤ x.score then x :: y :: ys else y :: sInsert x ys

/-- Model of `.sort((a, b) => b.score - a.score)`: the stable sort by
non-increasing score (stability is mandated by the ECMAScript spec). -/
def sortByScore (l : List ScoredRepo) : List ScoredRepo :=
  l.foldr sInsert []

/-- Model of `GitHubService.rankRepositories`: score every record, stably sort by
descending score, keep the top 8. -/
def rankRepositories (now : Int) (repos : List GitHubRepo) : List ScoredRepo :=
  (sortByScore (repos.map (addScore now))).take 8

/-- Model of `String.prototype.toLowerCase`, as a character list. -/
def toLowerL (s : String) : List Char :=
  s.data.map Char.toLower

/-- Model of `String.prototype.includes`: `q` occurs as a contiguous substring. -/
def containsSub (q : List Char) : List Char → Bool
  | [] => q.isEmpty
  | c :: rest => q.isPrefixOf (c :: rest) || containsSub q rest

/-- The text-match predicate of `hybridSearch`: the lowercased query is a
substring of the lowercased `name`, or of the lowercased `description`
when non-null, or of some lowercased topic. -/
def matchesQuery (q : String) (repo : GitHubRepo) : Bool :=
  containsSub (toLowerL q) (toLowerL repo.name)
    || (match repo.description with
        | none => false
        | some d => containsSub (toLowerL q) (toLowerL d))
    || repo.topics.any (fun t => containsSub (toLowerL q) (toLowerL t))

/-- A `hybridSearch` result entry: either an original record contributed by
the text-match phase (no `score` field) or a scored record contributed by
the ranked fill. -/
abbrev HybridEntry := GitHubRepo ⊕ ScoredRepo

/-- The identifier of a `hybridSearch` result entry. -/
def hybridId : HybridEntry → Int
  | Sum.inl r => r.id
  | Sum.inr s => s.repo.id

/-- Model of `GitHubService.hybridSearch` on an already-retrieved record list:
text matches (input order, first 4), then ranked records whose `id` is not
among the text matches (first 4 of those), finally truncated to 8. -/
def hybridSearch (now : Int) (q : String) (repos : List GitHubRepo) :
    List HybridEntry :=
  let textMatches := repos.filter (matchesQuery q)
  let rankedRepos := rankRepositories now repos
  let hybridResults :=
    (textMatches.take 4).map Sum.inl
      ++ ((rankedRepos.filter
            (fun r => ! textMatches.any (fun m => m.id == r.repo.id))).take 4).map
          Sum.inr
  hybridResults.take 8

/-! ### Concrete records used by counterexamples and witnesses -/

/-- A minimal record with the given `id`: no stars, forks, size, topics or
description, unpopular language, last updated at instant 0. -/
def mkRepo (i : Int) : GitHubRepo :=
  { id := i, name := "a", full_name := "a", description := none,
    language := "C", stargazers_count := 0, forks_count := 0, size := 0,
    updated_at := 0, topics := [] }

/-- Eight records, pairwise distinct ids, none of which matches the query
`"q"` textually. -/
def eightRepos : List GitHubRepo :=
  [mkRepo 1, mkRepo 2, mkRepo 3, mkRepo 4, mkRepo 5, mkRepo 6, mkRepo 7, mkRepo 8]

/-- The record of spec scenario 1 (score exactly 100 five days after its
last update). -/
def specRepo1 : GitHubRepo :=
  { id := 1, name := "kv", full_name := "u/kv",
    description := some "A distributed key-value store with WAL and compaction",
    language := "Rust", stargazers_count := 50, forks_count := 10,
    size := 20000, updated_at := 0, topics := [] }

/-- A record with a negative `stargazers_count`, exercising the absence of
input validation. -/
def badRepo : GitHubRepo :=
  { id := 99, name := "x", full_name := "x", description := none,
    language := "C", stargazers_count := -20, forks_count := 0, size := 0,
    updated_at := 0, topics := [] }

/-- A record whose `updated_at` instant lies in the future of `now = 0`. -/
def futureRepo : GitHubRepo :=
  { mkRepo 1 with updated_at := 1 }

/-! ### Bounds on the individual score components -/

lemma starScore_le (repo : GitHubRepo) : starScore repo ≤ 30 := by
  simp only [starScore]
  exact_mod_cast min_le_right (repo.stargazers_count * 2) 30

lemma starScore_nonneg (repo : GitHubRepo) (h : 0 ≤ repo.stargazers_count) :
    0 ≤ starScore repo := by
  simp only [starScore]
  have : (0 : Int) ≤ min (repo.stargazers_count * 2) 30 :=
    le_min (by linarith) (by norm_num)
  exact_mod_cast this

lemma forkScore_le (repo : GitHubRepo) : forkScore repo ≤ 20 := by
  simp only [forkScore]
  exact_mod_cast min_le_right (repo.forks_count * 3) 20

lemma forkScore_nonneg (repo : GitHubRepo) (h : 0 ≤ repo.forks_count) :
    0 ≤ forkScore repo := by
  simp only [forkScore]
  have : (0 : Int) ≤ min (repo.forks_count * 3) 20 :=
    le_min (by linarith) (by norm_num)
  exact_mod_cast this

lemma sizeScore_le (repo : GitHubRepo) : sizeScore repo ≤ 15 :=
  min_le_right _ _

lemma sizeScore_nonneg (repo : GitHubRepo) (h : 0 ≤ repo.size) :
    0 ≤ sizeScore repo := by
  refine le_min (div_nonneg ?_ (by norm_num)) (by norm_num)
  exact_mod_cast h

lemma langScore_nonneg (repo : GitHubRepo) : 0 ≤ langScore repo := by
  unfold langScore; split <;> norm_num

lemma langScore_le (repo : GitHubRepo) : langScore repo ≤ 10 := by
  unfold langScore; split <;> norm_num

lemma recencyScore_nonneg (now : Int) (repo : GitHubRepo) :
    0 ≤ recencyScore now repo := by
  unfold recencyScore; split
  · norm_num
  · split
    · norm_num
    · split <;> norm_num

lemma recencyScore_le (now : Int) (repo : GitHubRepo) :
    recencyScore now repo ≤ 15 := by
  unfold recencyScore; split
  · norm_num
  · split
    · norm_num
    · split <;> norm_num

lemma descriptionScore_nonneg (repo : GitHubRepo) : 0 ≤ descriptionScore repo := by
  rcases hd : repo.description with _ | d <;> simp only [descriptionScore, hd]
  · norm_num
  · split <;> norm_num

lemma descriptionScore_le (repo : GitHubRepo) : descriptionScore repo ≤ 10 := by
  rcases hd : repo.description with _ | d <;> simp only [descriptionScore, hd]
  · norm_num
  · split <;> norm_num

/-! ### Claims about the scorer -/

/-- C2: for every record whose numeric fields are non-negative and every
`now`, the computed relevance score lies between 0 and 100. -/
theorem C2_theorem (now : Int) (repo : GitHubRepo)
    (hs : 0 ≤ repo.stargazers_count) (hf : 0 ≤ repo.forks_count)
    (hz : 0 ≤ repo.size) :
    0 ≤ calculateRepoScore now repo ∧ calculateRepoScore now repo ≤ 100 := by
  have h1 := starScore_le repo
  have h2 := starScore_nonneg repo hs
  have h3 := forkScore_le repo
  have h4 := forkScore_nonneg repo hf
  have h5 := sizeScore_le repo
  have h6 := sizeScore_nonneg repo hz
  have h7 := langScore_le repo
  have h8 := langScore_nonneg repo
  have h9 := recencyScore_le now repo
  have h10 := recencyScore_nonneg now repo
  have h11 := descriptionScore_le repo
  have h12 := descriptionScore_nonneg repo
  unfold calculateRepoScore
  constructor <;> linarith

/-- Witness for C2 at the spec's scenario-1 record. -/
theorem C2_witness :
    0 ≤ calculateRepoScore (5 * 86400000) specRepo1
      ∧ calculateRepoScore (5 * 86400000) specRepo1 ≤ 100 :=
  C2_theorem (5 * 86400000) specRepo1 (by decide) (by decide) (by decide)

/-- C5: increasing `stargazers_count` (all other fields fixed) never
decreases the score, and once it is at least 15 (so the popularity term is
at its 30-point cap) any further increase leaves the score unchanged. -/
theorem C5_theorem (now : Int) (repo : GitHubRepo) (s2 : Int)
    (hle : repo.stargazers_count ≤ s2) :
    calculateRepoScore now repo
      ≤ calculateRepoScore now { repo with stargazers_count := s2 }
    ∧ (15 ≤ repo.stargazers_count →
        calculateRepoScore now { repo with stargazers_count := s2 }
          = calculateRepoScore now repo) := by
  have hfork : forkScore { repo with stargazers_count := s2 } = forkScore repo := rfl
  have hsize : sizeScore { repo with stargazers_count := s2 } = sizeScore repo := rfl
  have hlang : langScore { repo with stargazers_count := s2 } = langScore repo := rfl
  have hrec : recencyScore now { repo with stargazers_count := s2 }
      = recencyScore now repo := rfl
  have hdesc : descriptionScore { repo with stargazers_count := s2 }
      = descriptionScore repo := rfl
  constructor
  · have hstar : starScore repo ≤ starScore { repo with stargazers_count := s2 } := by
      simp only [starScore]
      have : min (repo.stargazers_count * 2) 30 ≤ min (s2 * 2) 30 :=
        min_le_min (by linarith) le_rfl
      exact_mod_cast this
    unfold calculateRepoScore
    rw [hfork, hsize, hlang, hrec, hdesc]
    linarith
  · intro h15
    have hstar : starScore { repo with stargazers_count := s2 } = starScore repo := by
      simp only [starScore]
      have ha : min (s2 * 2) 30 = 30 := min_eq_right (by linarith)
      have hb : min (repo.stargazers_count * 2) 30 = 30 := min_eq_right (by linarith)
      rw [ha, hb]
    unfold calculateRepoScore
    rw [hstar, hfork, hsize, hlang, hrec, hdesc]

/-- Witness for C5: raising the scenario-1 record's stars from 50 to 60
keeps the score unchanged (the popularity cap was already reached). -/
theorem C5_witness :
    calculateRepoScore 0 specRepo1
      ≤ calculateRepoScore 0 { specRepo1 with stargazers_count := 60 }
    ∧ calculateRepoScore 0 { specRepo1 with stargazers_count := 60 }
      = calculateRepoScore 0 specRepo1 :=
  ⟨(C5_theorem 0 specRepo1 60 (by decide)).1,
   (C5_theorem 0 specRepo1 60 (by decide)).2 (by decide)⟩

/-- C6, counterexample: `calculateRepoScore` performs no input validation,
so a record with a negative `stargazers_count` does not raise any
`InvalidInput` error; the code simply computes a (here negative) score,
contradicting the claim that such an input is rejected. -/
theorem C6_counterexample :
    badRepo.stargazers_count < 0
      ∧ calculateRepoScore (200 * 86400000) badRepo = -40 := by
  refine ⟨by decide, ?_⟩
  norm_num +decide [calculateRepoScore, starScore, forkScore, sizeScore,
    langScore, recencyScore, daysSinceUpdate, descriptionScore, badRepo,
    popularLanguages]

/-- C6, amended: the engine has no error path at all — the score is a total
function of any record (negative numeric fields included) and `now`, and
only its upper bound 100 survives without the non-negativity assumptions. -/
theorem C6_theorem (now : Int) (repo : GitHubRepo) :
    calculateRepoScore now repo ≤ 100 := by
  have h1 := starScore_le repo
  have h3 := forkScore_le repo
  have h5 := sizeScore_le repo
  have h7 := langScore_le repo
  have h9 := recencyScore_le now repo
  have h11 := descriptionScore_le repo
  unfold calculateRepoScore
  linarith

/-- C9: a record whose `updated_at` instant lies strictly in the future of
`now` gets the full recency bonus of 15 (its computed days-since-update is
negative, hence below every tier bound), so a future timestamp never
lowers the score below what any other timestamp could give. -/
theorem C9_theorem (now : Int) (repo : GitHubRepo)
    (h : now < repo.updated_at) :
    recencyScore now repo = 15
    ∧ calculateRepoScore now repo
        = starScore repo + forkScore repo + sizeScore repo + langScore repo
            + 15 + descriptionScore repo := by
  have hneg : daysSinceUpdate now repo < 0 := by
    apply div_neg_of_neg_of_pos
    · have : (now : ℚ) < (repo.updated_at : ℚ) := by exact_mod_cast h
      linarith
    · norm_num
  have hrec : recencyScore now repo = 15 := by
    unfold recencyScore
    rw [if_pos (by linarith)]
  exact ⟨hrec, by unfold calculateRepoScore; rw [hrec]⟩

/-- Witness for C9 at a record updated one millisecond after `now = 0`. -/
theorem C9_witness :
    recencyScore 0 futureRepo = 15
    ∧ calculateRepoScore 0 futureRepo
        = starScore futureRepo + forkScore futureRepo + sizeScore futureRepo
            + langScore futureRepo + 15 + descriptionScore futureRepo :=
  C9_theorem 0 futureRepo (by decide)

/-! ### Structure of the stable sort -/

lemma sInsert_length (x : ScoredRepo) (l : List ScoredRepo) :
    (sInsert x l).length = l.length + 1 := by
  induction l with
  | nil => rfl
  | cons y ys ih =>
    simp only [sInsert]
    split <;> simp [ih]

lemma sortByScore_length (l : List ScoredRepo) :
    (sortByScore l).length = l.length := by
  induction l with
  | nil => rfl
  | cons x xs ih =>
    simp only [sortByScore, List.foldr_cons] at *
    rw [sInsert_length, ih]
    rfl

lemma sInsert_perm (x : ScoredRepo) (l : List ScoredRepo) :
    List.Perm (sInsert x l) (x :: l) := by
  induction l with
  | nil => rfl
  | cons y ys ih =>
    simp only [sInsert]
    split
    · rfl
    · exact ((ih.cons y).trans (List.Perm.swap x y ys))

lemma sortByScore_perm (l : List ScoredRepo) : List.Perm (sortByScore l) l := by
  induction l with
  | nil => rfl
  | cons x xs ih =>
    simp only [sortByScore, List.foldr_cons] at *
    exact (sInsert_perm x _).trans (ih.cons x)

lemma sInsert_pairwise (x : ScoredRepo) (l : List ScoredRepo)
    (h : List.Pairwise (fun a b : ScoredRepo => b.score ≤ a.score) l) :
    List.Pairwise (fun a b : ScoredRepo => b.score ≤ a.score) (sInsert x l) := by
  induction l with
  | nil => simp [sInsert]
  | cons y ys ih =>
    rcases List.pairwise_cons.mp h with ⟨hy, hys⟩
    simp only [sInsert]
    split
    · rename_i hle
      refine List.pairwise_cons.mpr ⟨?_, h⟩
      intro z hz
      rcases List.mem_cons.mp hz with rfl | hz
      · exact hle
      · exact le_trans (hy z hz) hle
    · rename_i hgt
      push_neg at hgt
      refine List.pairwise_cons.mpr ⟨?_, ih hys⟩
      intro z hz
      rcases List.mem_cons.mp ((sInsert_perm x ys).mem_iff.mp hz) with rfl | hz
      · exact le_of_lt hgt
      · exact hy z hz

lemma sortByScore_pairwise (l : List ScoredRepo) :
    List.Pairwise (fun a b : ScoredRepo => b.score ≤ a.score) (sortByScore l) := by
  induction l with
  | nil => simp [sortByScore]
  | cons x xs ih =>
    simp only [sortByScore, List.foldr_cons] at *
    exact sInsert_pairwise x _ ih

lemma sInsert_filter_score (s : ℚ) (x : ScoredRepo) (l : List ScoredRepo) :
    (sInsert x l).filter (fun r => decide (r.score = s))
      = if x.score = s then x :: l.filter (fun r => decide (r.score = s))
        else l.filter (fun r => decide (r.score = s)) := by
  induction l with
  | nil => by_cases hx : x.score = s <;> simp [sInsert, List.filter, hx]
  | cons y ys ih =>
    simp only [sInsert]
    split
    · rename_i hle
      by_cases hx : x.score = s <;> simp [List.filter, hx]
    · rename_i hgt
      push_neg at hgt
      by_cases hx : x.score = s
      · have hy : ¬ (y.score = s) := fun he => by
          rw [he, ← hx] at hgt
          exact lt_irrefl _ hgt
        simp [List.filter, hx, hy, ih]
      · by_cases hy : y.score = s <;> simp [List.filter, hx, hy, ih]

lemma sortByScore_filter_score (s : ℚ) (l : List ScoredRepo) :
    (sortByScore l).filter (fun r => decide (r.score = s))
      = l.filter (fun r => decide (r.score = s)) := by
  induction l with
  | nil => rfl
  | cons x xs ih =>
    simp only [sortByScore, List.foldr_cons] at *
    rw [sInsert_filter_score]
    by_cases hx : x.score = s <;> simp [List.filter, hx, ih]

/-! ### Claims about the ranking -/

/-- C3: the ranking of any record list has exactly `min n 8` entries; in
particular the empty input yields the empty ranking (no error). -/
theorem C3_theorem (now : Int) (repos : List GitHubRepo) :
    (rankRepositories now repos).length = min repos.length 8
    ∧ rankRepositories now [] = ([] : List ScoredRepo) := by
  constructor
  · simp only [rankRepositories, List.length_take, sortByScore_length,
      List.length_map]
    exact Nat.min_comm 8 repos.length
  · rfl

/-- C4: the ranking is sorted by non-increasing score, and it is stable:
for every score value, the ranked entries carrying that score form a
prefix of the scored input records carrying that score, in input order. -/
theorem C4_theorem (now : Int) (repos : List GitHubRepo) :
    List.Pairwise (fun a b : ScoredRepo => b.score ≤ a.score)
      (rankRepositories now repos)
    ∧ ∀ s : ℚ,
        (rankRepositories now repos).filter (fun r => decide (r.score = s))
          <+: (repos.map (addScore now)).filter (fun r => decide (r.score = s)) := by
  constructor
  · exact (sortByScore_pairwise _).sublist (List.take_sublist 8 _)
  · intro s
    have hpre : (sortByScore (repos.map (addScore now))).take 8
        <+: sortByScore (repos.map (addScore now)) := List.take_prefix 8 _
    have : (rankRepositories now repos).filter (fun r => decide (r.score = s))
        <+: (sortByScore (repos.map (addScore now))).filter
              (fun r => decide (r.score = s)) :=
      hpre.filter _
    rwa [sortByScore_filter_score] at this

lemma rank_length (now : Int) (repos : List GitHubRepo) :
    (rankRepositories now repos).length = min repos.length 8 := by
  simp only [rankRepositories, List.length_take, sortByScore_length,
    List.length_map]
  exact Nat.min_comm 8 repos.length

/-! ### Structure of the hybrid search result -/

/-- The two merged segments of `hybridSearch` hold at most 4 entries each,
so the final `.slice(0, 8)` never removes anything. -/
lemma hybridSearch_eq (now : Int) (q : String) (repos : List GitHubRepo) :
    hybridSearch now q repos
      = ((repos.filter (matchesQuery q)).take 4).map Sum.inl
        ++ (((rankRepositories now repos).filter
              (fun r => ! (repos.filter (matchesQuery q)).any
                  (fun m => m.id == r.repo.id))).take 4).map Sum.inr := by
  simp only [hybridSearch]
  apply List.take_of_length_le
  rw [List.length_append, List.length_map, List.length_map]
  have h1 := List.length_take_le 4 (repos.filter (matchesQuery q))
  have h2 := List.length_take_le 4
    ((rankRepositories now repos).filter
      (fun r => ! (repos.filter (matchesQuery q)).any
          (fun m => m.id == r.repo.id)))
  omega

lemma containsSub_nil (l : List Char) : containsSub [] l = true := by
  cases l <;> simp [containsSub, List.isPrefixOf]

lemma matchesQuery_empty (repo : GitHubRepo) : matchesQuery "" repo = true := by
  simp [matchesQuery, show toLowerL "" = [] from rfl, containsSub_nil]

/-! ### Claims about the hybrid search -/

/-- C1, amended: the merge of `hybridSearch` is the text matches (at most 4)
followed by the non-duplicate ranked records capped at 4 — not filled up to
8 — so the final truncation to 8 never triggers, and with no text match
over at least 8 records the result has exactly 4 entries, not 8. -/
theorem C1_theorem (now : Int) (q : String) (repos : List GitHubRepo) :
    (hybridSearch now q repos
      = ((repos.filter (matchesQuery q)).take 4).map Sum.inl
        ++ (((rankRepositories now repos).filter
              (fun r => ! (repos.filter (matchesQuery q)).any
                  (fun m => m.id == r.repo.id))).take 4).map Sum.inr)
    ∧ ((repos.filter (matchesQuery q)).length = 0 → 8 ≤ repos.length →
        (hybridSearch now q repos).length = 4) := by
  refine ⟨hybridSearch_eq now q repos, ?_⟩
  intro h0 h8
  have htm : repos.filter (matchesQuery q) = [] := List.length_eq_zero.mp h0
  rw [hybridSearch_eq, htm]
  simp only [List.take_nil, List.map_nil, List.nil_append, List.length_map,
    List.any_nil, Bool.not_false, List.filter_true, List.length_take,
    rank_length]
  omega

/-- C1, counterexample to the claim as stated: eight records, none of which
text-matches the query, yield a 4-entry result, not an 8-entry one. -/
theorem C1_counterexample :
    eightRepos.filter (matchesQuery "q") = []
    ∧ eightRepos.length = 8
    ∧ (hybridSearch 0 "q" eightRepos).length = 4 := by
  refine ⟨by decide, by decide, ?_⟩
  norm_num +decide [hybridSearch, rankRepositories, sortByScore, sInsert,
    addScore, calculateRepoScore, starScore, forkScore, sizeScore, langScore,
    recencyScore, daysSinceUpdate, descriptionScore, matchesQuery, containsSub,
    toLowerL, eightRepos, mkRepo, popularLanguages, List.isPrefixOf]

/-- Witness for C1 (amended) at the eight no-match records. -/
theorem C1_witness :
    (hybridSearch 0 "q" eightRepos
      = ((eightRepos.filter (matchesQuery "q")).take 4).map Sum.inl
        ++ (((rankRepositories 0 eightRepos).filter
              (fun r => ! (eightRepos.filter (matchesQuery "q")).any
                  (fun m => m.id == r.repo.id))).take 4).map Sum.inr)
    ∧ (hybridSearch 0 "q" eightRepos).length = 4 :=
  ⟨(C1_theorem 0 "q" eightRepos).1,
   (C1_theorem 0 "q" eightRepos).2 (by decide) (by decide)⟩

/-- C7: the empty query text-matches every record (the empty string is a
substring of every name), so the text-match segment of the result is the
first `min 4 n` input records, in input order, as a prefix of the result. -/
theorem C7_theorem (now : Int) (repos : List GitHubRepo) :
    repos.filter (matchesQuery "") = repos
    ∧ ((repos.take 4).map Sum.inl) <+: hybridSearch now "" repos := by
  have hfil : repos.filter (matchesQuery "") = repos :=
    List.filter_eq_self.mpr (fun a _ => matchesQuery_empty a)
  refine ⟨hfil, ?_⟩
  rw [hybridSearch_eq, hfil]
  exact ⟨_, rfl⟩

/-- C8: when the input identifiers are pairwise distinct, no identifier
occurs twice in a `hybridSearch` result, and the result has at most 8
entries. -/
theorem C8_theorem (now : Int) (q : String) (repos : List GitHubRepo)
    (h : (repos.map GitHubRepo.id).Nodup) :
    ((hybridSearch now q repos).map hybridId).Nodup
    ∧ (hybridSearch now q repos).length ≤ 8 := by
  have hscored : (repos.map (addScore now)).map (fun e => e.repo.id)
      = repos.map GitHubRepo.id := by
    rw [List.map_map]
    rfl
  have hsortIds : ((sortByScore (repos.map (addScore now))).map
      (fun e => e.repo.id)).Nodup := by
    have hperm := (sortByScore_perm (repos.map (addScore now))).map
      (fun e => e.repo.id)
    rw [hscored] at hperm
    exact hperm.nodup_iff.mpr h
  constructor
  · rw [hybridSearch_eq, List.map_append, List.map_map, List.map_map]
    have hA : List.Sublist
        (((repos.filter (matchesQuery q)).take 4).map (hybridId ∘ Sum.inl))
        (repos.map GitHubRepo.id) :=
      ((List.take_sublist 4 _).trans (List.filter_sublist _)).map _
    have hB : List.Sublist
        ((((rankRepositories now repos).filter
            (fun r => ! (repos.filter (matchesQuery q)).any
                (fun m => m.id == r.repo.id))).take 4).map (hybridId ∘ Sum.inr))
        ((sortByScore (repos.map (addScore now))).map (fun e => e.repo.id)) := by
      refine List.Sublist.map _ ?_
      exact ((List.take_sublist 4 _).trans (List.filter_sublist _)).trans
        (List.take_sublist 8 _)
    refine List.nodup_append.mpr ⟨h.sublist hA, hsortIds.sublist hB, ?_⟩
    intro a haA haB
    obtain ⟨m, hm, rfl⟩ := List.mem_map.mp haA
    obtain ⟨e, he, heq⟩ := List.mem_map.mp haB
    have hmtm : m ∈ repos.filter (matchesQuery q) := List.mem_of_mem_take hm
    have hefil := (List.mem_filter.mp (List.mem_of_mem_take he)).2
    rw [Bool.not_eq_true', List.any_eq_false] at hefil
    have := hefil m hmtm
    simp only [beq_iff_eq] at this
    exact this (by exact_mod_cast heq.symm)
  · rw [hybridSearch_eq, List.length_append, List.length_map, List.length_map]
    have h1 := List.length_take_le 4 (repos.filter (matchesQuery q))
    have h2 := List.length_take_le 4
      ((rankRepositories now repos).filter
        (fun r => ! (repos.filter (matchesQuery q)).any
            (fun m => m.id == r.repo.id)))
    omega

/-- Witness for C8 at the eight distinct-id records and the empty query. -/
theorem C8_witness :
    ((hybridSearch 0 "" eightRepos).map hybridId).Nodup
    ∧ (hybridSearch 0 "" eightRepos).length ≤ 8 :=
  C8_theorem 0 "" eightRepos (by decide)

lemma mem_rank (now : Int) (repos : List GitHubRepo) {e : ScoredRepo}
    (he : e ∈ rankRepositories now repos) :
    e.repo ∈ repos ∧ e.score = calculateRepoScore now e.repo := by
  have h1 : e ∈ sortByScore (repos.map (addScore now)) :=
    (List.take_sublist 8 _).subset he
  have h2 : e ∈ repos.map (addScore now) :=
    (sortByScore_perm _).mem_iff.mp h1
  obtain ⟨r, hr, rfl⟩ := List.mem_map.mp h2
  exact ⟨hr, rfl⟩

/-- C10: every ranked entry is a source input record carrying, in addition,
exactly its computed score; in a `hybridSearch` result the text-match
entries are original input records without a score field (and genuinely
text-match the query), while ranked-fill entries are input records carrying
their computed score. The inputs themselves are never modified (the
embedding of the source's `map`/`filter`/`slice`/spread pipeline is pure). -/
theorem C10_theorem (now : Int) (q : String) (repos : List GitHubRepo) :
    (∀ e ∈ rankRepositories now repos,
        e.repo ∈ repos ∧ e.score = calculateRepoScore now e.repo)
    ∧ (∀ r : GitHubRepo, Sum.inl r ∈ hybridSearch now q repos →
        r ∈ repos ∧ matchesQuery q r = true)
    ∧ (∀ sc : ScoredRepo, Sum.inr sc ∈ hybridSearch now q repos →
        sc.repo ∈ repos ∧ sc.score = calculateRepoScore now sc.repo) := by
  refine ⟨fun e he => mem_rank now repos he, ?_, ?_⟩
  · intro r hr
    rw [hybridSearch_eq] at hr
    rcases List.mem_append.mp hr with hA | hB
    · obtain ⟨m, hm, heq⟩ := List.mem_map.mp hA
      obtain rfl : m = r := Sum.inl.inj heq
      have hmem : m ∈ repos.filter (matchesQuery q) := List.mem_of_mem_take hm
      exact ⟨(List.mem_filter.mp hmem).1, (List.mem_filter.mp hmem).2⟩
    · obtain ⟨e, _, heq⟩ := List.mem_map.mp hB
      simp at heq
  · intro sc hsc
    rw [hybridSearch_eq] at hsc
    rcases List.mem_append.mp hsc with hA | hB
    · obtain ⟨m, _, heq⟩ := List.mem_map.mp hA
      simp at heq
    · obtain ⟨e, he, heq⟩ := List.mem_map.mp hB
      obtain rfl : e = sc := Sum.inr.inj heq
      have hmem : e ∈ rankRepositories now repos :=
        (List.filter_sublist _).subset (List.mem_of_mem_take he)
      exact mem_rank now repos hmem

/-- Witness for C10 at a singleton input list. -/
theorem C10_witness :
    (addScore 0 (mkRepo 1)).repo ∈ [mkRepo 1]
    ∧ (addScore 0 (mkRepo 1)).score
        = calculateRepoScore 0 (addScore 0 (mkRepo 1)).repo :=
  (C10_theorem 0 "" [mkRepo 1]).1 (addScore 0 (mkRepo 1))
    (show addScore 0 (mkRepo 1)
        ∈ ([addScore 0 (mkRepo 1)] : List ScoredRepo) from
      List.mem_singleton_self _)

end GitResume
